import Mathlib

/-!
Verification development for the crawl orchestration engine of the
react_flask_web_scraping repository.

The repository ships the React frontend (`CrawlerMain.jsx`) together with
design documents that carry the reference pseudocode of the backend
components (`doc/dev/advanced_features_design.md`).  Pure functions are
embedded directly; stateful components are embedded as explicit state
passing over small state structures; Python floats are modelled as exact
rationals (ℚ), since all score arithmetic in the source uses small decimal
constants.
-/

/-! ## Association lists

Both `DomainScoreManager._scores` (a Python dict) and the frontend's
`results` object (a JS object keyed by task id) are embedded as
association lists with a replace-or-append insertion. -/

/-- Replace-or-append insertion into an association list; embeds
`dict[k] = v` on a Python dict / `{...obj, [k]: v}` on a JS object. -/
def insertAssoc {α : Type} : List (String × α) → String → α → List (String × α)
  | [], d, v => [(d, v)]
  | (k, w) :: rest, d, v =>
    if k = d then (d, v) :: rest else (k, w) :: insertAssoc rest d v

theorem lookup_insertAssoc {α : Type} (l : List (String × α)) (d d' : String) (v : α) :
    (insertAssoc l d v).lookup d' = if d' = d then some v else l.lookup d' := by
  induction l with
  | nil =>
    simp only [insertAssoc, List.lookup]
    by_cases h : d' = d
    · simp [h]
    · simp [beq_eq_false_iff_ne.mpr h, h]
  | cons kv rest ih =>
    obtain ⟨k, w⟩ := kv
    simp only [insertAssoc]
    by_cases hk : k = d
    · subst hk
      simp only [if_pos rfl, List.lookup]
      by_cases h : d' = k
      · simp [h]
      · simp [beq_eq_false_iff_ne.mpr h, h]
    · simp only [if_neg hk, List.lookup]
      by_cases h : d' = k
      · subst h
        have hne : ¬ d' = d := fun hc => hk (hc ▸ rfl)
        simp [hne]
      · simp [beq_eq_false_iff_ne.mpr h, ih]

/-! ## DomainScoreManager

Embedded from `doc/dev/advanced_features_design.md`, §2.4.1
(`domain_score_manager.py` pseudocode, lines 149–179).  The Python
`_extract_domain` helper is not part of the shipped sources, so all
operations below take the already-resolved host (domain) of a URL. -/

/-- Embeds Python's binary `min` on floats (here exact rationals). -/
def ratMin (a b : ℚ) : ℚ := if a ≤ b then a else b

/-- Embeds Python's binary `max` on floats (here exact rationals). -/
def ratMax (a b : ℚ) : ℚ := if a ≤ b then b else a

structure DomainScoreManager where
  scores : List (String × ℚ)
  whitelist : List String
  blacklist : List String

/-- Embeds `self._scores.get(domain, 1.0)`. -/
def storedScore (m : DomainScoreManager) (domain : String) : ℚ :=
  (m.scores.lookup domain).getD 1

/-- Embeds `get_score`: whitelist → 10.0, blacklist → 0.0, else the
stored score with default 1.0. -/
def get_score (m : DomainScoreManager) (domain : String) : ℚ :=
  if domain ∈ m.whitelist then 10
  else if domain ∈ m.blacklist then 0
  else storedScore m domain

/-- Embeds the `delta` case analysis of `update_score`: the pseudocode
initialises `delta = 0.0` and only reassigns it for the four listed
event kinds, so every other event (including `DUPLICATE_CONTENT`)
leaves `delta = 0.0`. -/
def eventDelta (event_type : String) : ℚ :=
  if event_type = "RESOURCE_FOUND" then 2/10
  else if event_type = "HIGH_QUALITY_CONTENT" then 5/100
  else if event_type = "FAST_RESPONSE" then 2/100
  else if event_type = "ERROR_4XX_5XX" then -(5/10)
  else 0

/-- Embeds `update_score`: a no-op for whitelisted/blacklisted hosts,
otherwise stores `max(0.1, min(5.0, current + delta))` — the pseudocode
clamps to the upper bound 5.0 (its inline comment reads
"限制范围 [0.1, 5.0]"), not to the 10.0 stated in the same document's
scoring-model table. -/
def update_score (m : DomainScoreManager) (domain : String) (event_type : String) :
    DomainScoreManager :=
  if domain ∈ m.whitelist ∨ domain ∈ m.blacklist then m
  else
    let current := storedScore m domain
    let delta := eventDelta event_type
    { m with scores := insertAssoc m.scores domain (ratMax (1/10) (ratMin 5 (current + delta))) }

/-- Embeds the constructor: `self._scores = {}` with the configured
whitelist and blacklist. -/
def mkManager (wl bl : List String) : DomainScoreManager :=
  { scores := [], whitelist := wl, blacklist := bl }

/-- A sequence of feedback events `(domain, event_type)` applied through
`update_score`. -/
def runUpdates (m : DomainScoreManager) (evs : List (String × String)) :
    DomainScoreManager :=
  evs.foldl (fun acc e => update_score acc e.1 e.2) m

/-- All stored scores lie within the claimed bound `[0.1, 10.0]`. -/
def ScoresBounded (m : DomainScoreManager) : Prop :=
  ∀ d q, m.scores.lookup d = some q → 1/10 ≤ q ∧ q ≤ 10

theorem scoresBounded_update (m : DomainScoreManager) (hd : ScoresBounded m)
    (d e : String) : ScoresBounded (update_score m d e) := by
  unfold update_score
  by_cases hwb : d ∈ m.whitelist ∨ d ∈ m.blacklist
  · simpa [hwb] using hd
  · simp only [hwb, if_false]
    intro d' q hq
    rw [lookup_insertAssoc] at hq
    by_cases hdd : d' = d
    · simp only [hdd, if_true, Option.some.injEq] at hq
      subst hq
      unfold ratMax ratMin
      split_ifs with h1 h2 <;> exact ⟨by linarith, by linarith⟩
    · simp only [hdd, if_false] at hq
      exact hd d' q hq

theorem scoresBounded_runUpdates (m : DomainScoreManager) (hd : ScoresBounded m)
    (evs : List (String × String)) : ScoresBounded (runUpdates m evs) := by
  induction evs generalizing m with
  | nil => exact hd
  | cons ev rest ih =>
    exact ih _ (scoresBounded_update m hd ev.1 ev.2)

theorem whitelist_runUpdates (m : DomainScoreManager) (evs : List (String × String)) :
    (runUpdates m evs).whitelist = m.whitelist ∧
    (runUpdates m evs).blacklist = m.blacklist := by
  induction evs generalizing m with
  | nil => exact ⟨rfl, rfl⟩
  | cons ev rest ih =>
    have hstep : (update_score m ev.1 ev.2).whitelist = m.whitelist ∧
        (update_score m ev.1 ev.2).blacklist = m.blacklist := by
      unfold update_score
      by_cases hwb : ev.1 ∈ m.whitelist ∨ ev.1 ∈ m.blacklist <;> simp [hwb]
    obtain ⟨hw, hb⟩ := ih (update_score m ev.1 ev.2)
    exact ⟨hw.trans hstep.1, hb.trans hstep.2⟩

/-- C2.  For every sequence of `update_score` feedback events, every
stored score stays within `[0.1, 10.0]`, and the score reported for a
whitelisted (10.0) or blacklisted (0.0) domain never changes. -/
theorem domain_score_bounds_and_overrides (wl bl : List String)
    (evs : List (String × String)) :
    (∀ d q, (runUpdates (mkManager wl bl) evs).scores.lookup d = some q →
      1/10 ≤ q ∧ q ≤ 10) ∧
    (∀ d, d ∈ wl → get_score (runUpdates (mkManager wl bl) evs) d = 10) ∧
    (∀ d, d ∉ wl → d ∈ bl → get_score (runUpdates (mkManager wl bl) evs) d = 0) := by
  refine ⟨?_, ?_, ?_⟩
  · exact scoresBounded_runUpdates _ (by intro d q hq; simp [mkManager] at hq) evs
  · intro d hdw
    have hw := (whitelist_runUpdates (mkManager wl bl) evs).1
    unfold get_score
    rw [hw]
    simp [mkManager, hdw]
  · intro d hdw hdb
    have hw := (whitelist_runUpdates (mkManager wl bl) evs).1
    have hb := (whitelist_runUpdates (mkManager wl bl) evs).2
    unfold get_score
    rw [hw, hb]
    simp [mkManager, hdw, hdb]

/-- C2 witness: one `RESOURCE_FOUND` event on a plain domain yields the
stored score 1.2 ∈ [0.1, 10.0], and a whitelisted domain still reads
10.0 after an update aimed at it. -/
theorem domain_score_bounds_and_overrides_witness :
    (1/10 ≤ (12/10 : ℚ) ∧ (12/10 : ℚ) ≤ 10) ∧
    get_score (runUpdates (mkManager ["w.test"] []) [("w.test", "ERROR_4XX_5XX")]) "w.test" = 10 := by
  constructor
  · exact (domain_score_bounds_and_overrides [] [] [("d.test", "RESOURCE_FOUND")]).1
      "d.test" (12/10)
      (by norm_num [runUpdates, update_score, mkManager, storedScore, eventDelta,
        insertAssoc, ratMax, ratMin, List.lookup])
  · exact (domain_score_bounds_and_overrides ["w.test"] [] [("w.test", "ERROR_4XX_5XX")]).2.1
      "w.test" (by decide)

/-- C8.  `get_score` returns 10.0 for whitelisted hosts, 0.0 for
blacklisted hosts, the stored score when one exists, and 1.0 otherwise. -/
theorem get_score_cases (m : DomainScoreManager) (d : String) :
    (d ∈ m.whitelist → get_score m d = 10) ∧
    (d ∉ m.whitelist → d ∈ m.blacklist → get_score m d = 0) ∧
    (d ∉ m.whitelist → d ∉ m.blacklist →
      ∀ q, m.scores.lookup d = some q → get_score m d = q) ∧
    (d ∉ m.whitelist → d ∉ m.blacklist →
      m.scores.lookup d = none → get_score m d = 1) := by
  refine ⟨?_, ?_, ?_, ?_⟩
  · intro hw; simp [get_score, hw]
  · intro hw hb; simp [get_score, hw, hb]
  · intro hw hb q hq; simp [get_score, hw, hb, storedScore, hq]
  · intro hw hb hq; simp [get_score, hw, hb, storedScore, hq]

/-- C8 witness: the four branches of `get_score` evaluated on a concrete
manager with one stored score. -/
theorem get_score_cases_witness :
    get_score ⟨[("s.test", 3)], ["w.test"], ["b.test"]⟩ "w.test" = 10 ∧
    get_score ⟨[("s.test", 3)], ["w.test"], ["b.test"]⟩ "b.test" = 0 ∧
    get_score ⟨[("s.test", 3)], ["w.test"], ["b.test"]⟩ "s.test" = 3 ∧
    get_score ⟨[("s.test", 3)], ["w.test"], ["b.test"]⟩ "x.test" = 1 := by
  refine ⟨?_, ?_, ?_, ?_⟩
  · exact (get_score_cases _ "w.test").1 (by decide)
  · exact (get_score_cases _ "b.test").2.1 (by decide) (by decide)
  · exact (get_score_cases _ "s.test").2.2.1 (by decide) (by decide) 3 (by decide)
  · exact (get_score_cases _ "x.test").2.2.2 (by decide) (by decide) (by decide)

/-- C9.  The `update_score` pseudocode diverges from its own scoring
table and from the claim: at the reachable stored score 4.9 a
`RESOURCE_FOUND` event clamps to 5.0 instead of reaching 5.1 (the code
clamps into [0.1, 5.0], not [0.1, 10.0]), and a `DUPLICATE_CONTENT`
event applies no delta at all (the score stays 1.0 instead of dropping
to 0.9). -/
theorem update_score_divergence :
    get_score (update_score ⟨[("d.test", 49/10)], [], []⟩ "d.test" "RESOURCE_FOUND") "d.test" = 5 ∧
    get_score (update_score (mkManager [] []) "a.test" "DUPLICATE_CONTENT") "a.test" = 1 ∧
    (5 : ℚ) ≠ 49/10 + 2/10 ∧ (1 : ℚ) ≠ 1 - 1/10 := by
  refine ⟨?_, ?_, by norm_num, by norm_num⟩
  · norm_num [update_score, get_score, mkManager, storedScore, eventDelta, insertAssoc,
      ratMax, ratMin, List.lookup]
  · have h : eventDelta "DUPLICATE_CONTENT" = 0 := by decide
    norm_num [update_score, get_score, mkManager, storedScore, insertAssoc,
      ratMax, ratMin, List.lookup, h]

/-! ## Frontier

The traversal data structure of §4.2.  Its implementation
(`url_queue_impl.py`) is not among the shipped sources.

Modelled from the spec: `enqueue(url, depth, ...)` normalizes the URL and
rejects with reasons OutOfScope / TooDeep / AlreadyVisited /
AlreadyScheduled; an accepted entry carries the normalized URL, its depth,
an integer priority and an insertion sequence number.  URL normalization
and the allow-domains host test are code that is not under the shipped
sources either, so they appear as opaque-to-the-model function parameters
`normalize` and `inScope` of the configuration.  The orchestration loop
(§4.5) processes one dequeued URL to completion — marking it visited —
before any further enqueue can happen, so the dequeue step below marks the
dequeued URL visited atomically; the dequeued element is chosen by an
arbitrary index so that every strategy (BFS, DFS, BIG_SITE_FIRST) is an
instance. -/

structure FrontierEntry where
  url : String
  depth : ℕ
  priority : ℤ
  seq : ℕ
  deriving DecidableEq

structure FrontierCfg where
  normalize : String → String
  inScope : String → Bool
  max_depth : ℕ

inductive RejectReason
  | OutOfScope
  | TooDeep
  | AlreadyVisited
  | AlreadyScheduled
  deriving DecidableEq

structure Frontier where
  visited : List String
  queued : List FrontierEntry
  nextSeq : ℕ
  dequeued : List String
  deriving DecidableEq

def Frontier.initial : Frontier :=
  { visited := [], queued := [], nextSeq := 0, dequeued := [] }

def Frontier.enqueue (cfg : FrontierCfg) (f : Frontier) (url : String) (depth : ℕ)
    (priority : ℤ) : Frontier × Option RejectReason :=
  if cfg.inScope (cfg.normalize url) = false then (f, some .OutOfScope)
  else if cfg.max_depth < depth then (f, some .TooDeep)
  else if cfg.normalize url ∈ f.visited then (f, some .AlreadyVisited)
  else if cfg.normalize url ∈ f.queued.map FrontierEntry.url then (f, some .AlreadyScheduled)
  else ({ f with
          queued := f.queued ++ [⟨cfg.normalize url, depth, priority, f.nextSeq⟩],
          nextSeq := f.nextSeq + 1 }, none)

def Frontier.dequeueAt (f : Frontier) (i : ℕ) : Frontier :=
  if h : i < f.queued.length then
    { f with
      queued := f.queued.eraseIdx i,
      visited := (f.queued.get ⟨i, h⟩).url :: f.visited,
      dequeued := f.dequeued ++ [(f.queued.get ⟨i, h⟩).url] }
  else f

/-- One interaction with the frontier: an `enqueue` call, or one loop
iteration dequeuing the entry at a strategy-chosen position. -/
inductive CrawlOp
  | enq (url : String) (depth : ℕ) (priority : ℤ)
  | deq (i : ℕ)

def Frontier.step (cfg : FrontierCfg) (f : Frontier) : CrawlOp → Frontier
  | .enq url depth priority => (Frontier.enqueue cfg f url depth priority).1
  | .deq i => f.dequeueAt i

def runOps (cfg : FrontierCfg) (f : Frontier) (ops : List CrawlOp) : Frontier :=
  ops.foldl (Frontier.step cfg) f

/-- The dedup invariant of the frontier: no URL dequeued twice, no URL in
the visited set twice, queued URLs pairwise distinct and disjoint from the
visited set, and every dequeued URL recorded as visited. -/
def FrontierInv (f : Frontier) : Prop :=
  f.dequeued.Nodup ∧ f.visited.Nodup ∧
  (f.queued.map FrontierEntry.url).Nodup ∧
  (∀ e ∈ f.queued, e.url ∉ f.visited) ∧
  (∀ u ∈ f.dequeued, u ∈ f.visited)

theorem eraseIdx_entry_spec (q : List FrontierEntry) (i : ℕ) (h : i < q.length)
    (hnd : (q.map FrontierEntry.url).Nodup) :
    ∀ e' ∈ q.eraseIdx i, e' ∈ q ∧ e'.url ≠ (q.get ⟨i, h⟩).url := by
  induction q generalizing i with
  | nil => cases h
  | cons a t ih =>
    cases i with
    | zero =>
      intro e' he'
      simp only [List.eraseIdx] at he'
      refine ⟨List.mem_cons_of_mem a he', ?_⟩
      simp only [List.map_cons, List.nodup_cons] at hnd
      intro hc
      exact hnd.1 (hc ▸ List.mem_map_of_mem FrontierEntry.url he')
    | succ j =>
      intro e' he'
      simp only [List.eraseIdx] at he'
      simp only [List.map_cons, List.nodup_cons] at hnd
      have hjt : j < t.length := by
        simpa using Nat.lt_of_succ_lt_succ h
      rcases List.mem_cons.mp he' with rfl | he'
      · refine ⟨List.mem_cons_self _ t, ?_⟩
        have hgt : ((e' :: t).get ⟨j + 1, h⟩) = t.get ⟨j, hjt⟩ := rfl
        rw [hgt]
        intro hc
        exact hnd.1 (by rw [hc]; exact List.mem_map_of_mem FrontierEntry.url (t.get_mem j hjt))
      · obtain ⟨hmem, hne⟩ := ih j hjt hnd.2 e' he'
        exact ⟨List.mem_cons_of_mem a hmem, by simpa using hne⟩

theorem eraseIdx_url_nodup (q : List FrontierEntry) (i : ℕ)
    (hnd : (q.map FrontierEntry.url).Nodup) :
    ((q.eraseIdx i).map FrontierEntry.url).Nodup := by
  exact hnd.sublist ((q.eraseIdx_sublist i).map FrontierEntry.url)

theorem frontierInv_enqueue (cfg : FrontierCfg) (f : Frontier) (hInv : FrontierInv f)
    (url : String) (depth : ℕ) (priority : ℤ) :
    FrontierInv (Frontier.enqueue cfg f url depth priority).1 := by
  obtain ⟨h1, h2, h3, h4, h5⟩ := hInv
  unfold Frontier.enqueue
  split_ifs with c1 c2 c3 c4
  · exact ⟨h1, h2, h3, h4, h5⟩
  · exact ⟨h1, h2, h3, h4, h5⟩
  · exact ⟨h1, h2, h3, h4, h5⟩
  · exact ⟨h1, h2, h3, h4, h5⟩
  · refine ⟨h1, h2, ?_, ?_, h5⟩
    · simp only [List.map_append, List.map_cons, List.map_nil]
      rw [List.nodup_append]
      exact ⟨h3, List.nodup_singleton _, by
        intro u hu hc
        simp only [List.mem_singleton] at hc
        exact c4 (hc ▸ hu)⟩
    · intro e he
      rcases List.mem_append.mp he with he | he
      · exact h4 e he
      · simp only [List.mem_singleton] at he
        subst he
        exact c3

theorem frontierInv_dequeueAt (f : Frontier) (hInv : FrontierInv f) (i : ℕ) :
    FrontierInv (f.dequeueAt i) := by
  obtain ⟨h1, h2, h3, h4, h5⟩ := hInv
  unfold Frontier.dequeueAt
  split_ifs with h
  · have hget : f.queued.get ⟨i, h⟩ ∈ f.queued := f.queued.get_mem i h
    have hnotvis : (f.queued.get ⟨i, h⟩).url ∉ f.visited := h4 _ hget
    refine ⟨?_, ?_, ?_, ?_, ?_⟩
    · rw [List.nodup_append]
      refine ⟨h1, List.nodup_singleton _, ?_⟩
      intro u hu hc
      simp only [List.mem_singleton] at hc
      exact hnotvis (hc ▸ h5 u hu)
    · exact List.nodup_cons.mpr ⟨hnotvis, h2⟩
    · exact eraseIdx_url_nodup f.queued i h3
    · intro e he
      obtain ⟨hmem, hne⟩ := eraseIdx_entry_spec f.queued i h h3 e he
      intro hc
      rcases List.mem_cons.mp hc with hc | hc
      · exact hne hc
      · exact h4 e hmem hc
    · intro u hu
      rcases List.mem_append.mp hu with hu | hu
      · exact List.mem_cons_of_mem _ (h5 u hu)
      · simp only [List.mem_singleton] at hu
        exact hu ▸ List.mem_cons_self _ _
  · exact ⟨h1, h2, h3, h4, h5⟩

theorem frontierInv_runOps (cfg : FrontierCfg) (f : Frontier) (hInv : FrontierInv f)
    (ops : List CrawlOp) : FrontierInv (runOps cfg f ops) := by
  induction ops generalizing f with
  | nil => exact hInv
  | cons op rest ih =>
    refine ih _ ?_
    cases op with
    | enq url depth priority => exact frontierInv_enqueue cfg f hInv url depth priority
    | deq i => exact frontierInv_dequeueAt f hInv i

theorem frontierInv_initial : FrontierInv Frontier.initial := by
  refine ⟨List.nodup_nil, List.nodup_nil, List.nodup_nil, ?_, ?_⟩ <;> simp [Frontier.initial]

/-- C1.  Over every sequence of frontier interactions starting from the
empty frontier, no normalized URL is dequeued twice, no normalized URL
enters the visited set twice, and an enqueue of a URL whose normalized
form is already visited leaves the frontier unchanged and is rejected. -/
theorem frontier_no_double_dequeue (cfg : FrontierCfg) (ops : List CrawlOp) :
    (runOps cfg Frontier.initial ops).dequeued.Nodup ∧
    (runOps cfg Frontier.initial ops).visited.Nodup ∧
    (∀ url depth priority,
      cfg.normalize url ∈ (runOps cfg Frontier.initial ops).visited →
      (Frontier.enqueue cfg (runOps cfg Frontier.initial ops) url depth priority).1 =
          runOps cfg Frontier.initial ops ∧
        (Frontier.enqueue cfg (runOps cfg Frontier.initial ops) url depth priority).2 ≠
          none) := by
  have hInv := frontierInv_runOps cfg Frontier.initial frontierInv_initial ops
  refine ⟨hInv.1, hInv.2.1, ?_⟩
  intro url depth priority hvis
  unfold Frontier.enqueue
  split_ifs with c1 c2 c3 c4 <;> simp_all

/-- C1 witness: enqueue a URL, dequeue it, and observe that re-enqueuing
it is rejected while the dequeued trace stays duplicate-free. -/
theorem frontier_no_double_dequeue_witness :
    (runOps ⟨fun s => s, fun _ => true, 3⟩ Frontier.initial
        [.enq "http://a.test" 0 0, .deq 0]).dequeued.Nodup ∧
    (Frontier.enqueue ⟨fun s => s, fun _ => true, 3⟩
        (runOps ⟨fun s => s, fun _ => true, 3⟩ Frontier.initial
          [.enq "http://a.test" 0 0, .deq 0]) "http://a.test" 1 0).2 ≠ none := by
  refine ⟨(frontier_no_double_dequeue ⟨fun s => s, fun _ => true, 3⟩
    [.enq "http://a.test" 0 0, .deq 0]).1, ?_⟩
  exact ((frontier_no_double_dequeue ⟨fun s => s, fun _ => true, 3⟩
    [.enq "http://a.test" 0 0, .deq 0]).2.2 "http://a.test" 1 0 (by decide)).2

/-! ## BIG_SITE_FIRST priority and dequeue

The priority computation is embedded from
`doc/dev/advanced_features_design.md` §2.4.2 (crawler_service
`_execute_crawl_loop` integration pseudocode, lines 208–226):
`base_priority = 5 if link.endswith(".pdf") else 1`,
`final_priority = int(base_priority * domain_weight * 10)`.  The factors
are nonnegative (scores lie in [0, 10]), so Python's truncating `int()`
agrees with the floor used below.  The max-priority dequeue itself is
code that is not among the shipped sources; modelled from the spec:
stable maximum-priority selection, ties broken by insertion order
(the queue list is kept in insertion order, so the stable choice is the
leftmost entry attaining the maximal priority). -/

/-- Boolean equality of character lists (an executable spelling that the
kernel reduces on literals). -/
def charListEq : List Char → List Char → Bool
  | [], [] => true
  | a :: s, b :: t => a == b && charListEq s t
  | _, _ => false

/-- Embeds Python's `str.endswith`: the last characters of `s` spell
`suffix`. -/
def strEndsWith (s suffix : String) : Bool :=
  if suffix.data.length ≤ s.data.length then
    charListEq (s.data.drop (s.data.length - suffix.data.length)) suffix.data
  else false

/-- Embeds `link.endswith(".pdf")`, the extractor-supplied resource-link
heuristic used by the enqueue pseudocode. -/
def isResourceLink (link : String) : Bool := strEndsWith link ".pdf"

/-- Embeds `base_priority = 5 if link.endswith(".pdf") else 1`. -/
def basePriority (link : String) : ℚ := if isResourceLink link then 5 else 1

/-- Embeds `final_priority = int(base_priority * domain_weight * 10)` with
`domain_weight = score_manager.get_score(link)`; `hostOf` abstracts the
host resolution inside `get_score`, which is not among the shipped
sources. -/
def enqueuePriority (m : DomainScoreManager) (hostOf : String → String)
    (link : String) : ℤ :=
  ⌊basePriority link * get_score m (hostOf link) * 10⌋

/-- An enqueue under the BIG_SITE_FIRST strategy: the generic frontier
enqueue with the dynamically computed priority. -/
def bsfEnqueue (cfg : FrontierCfg) (m : DomainScoreManager) (hostOf : String → String)
    (f : Frontier) (url : String) (depth : ℕ) : Frontier × Option RejectReason :=
  Frontier.enqueue cfg f url depth (enqueuePriority m hostOf url)

/-- Leftmost maximum-priority selection over `e :: l`: returns the index
(into `e :: l`) and the entry of the first entry attaining the maximal
priority. -/
def selectMax1 (e : FrontierEntry) : List FrontierEntry → ℕ × FrontierEntry
  | [] => (0, e)
  | a :: t =>
    if e.priority < (selectMax1 a t).2.priority
    then ((selectMax1 a t).1 + 1, (selectMax1 a t).2)
    else (0, e)

/-- Modelled from the spec: BIG_SITE_FIRST `dequeue()` — remove and
return a maximum-priority entry, ties broken by insertion order; `none`
is the Empty sentinel. -/
def bsfDequeue (q : List FrontierEntry) : Option (FrontierEntry × List FrontierEntry) :=
  match q with
  | [] => none
  | e :: rest =>
    some ((selectMax1 e rest).2, q.eraseIdx (selectMax1 e rest).1)

theorem selectMax1_spec (l : List FrontierEntry) (e : FrontierEntry) :
    (∀ x ∈ e :: l, x.priority ≤ (selectMax1 e l).2.priority) ∧
    ∃ hi : (selectMax1 e l).1 < (e :: l).length,
      (e :: l).get ⟨(selectMax1 e l).1, hi⟩ = (selectMax1 e l).2 ∧
      ∀ j, ∀ hj : j < (e :: l).length, j < (selectMax1 e l).1 →
        ((e :: l).get ⟨j, hj⟩).priority < (selectMax1 e l).2.priority := by
  induction l generalizing e with
  | nil =>
    refine ⟨?_, ⟨by simp [selectMax1], rfl, ?_⟩⟩
    · intro x hx
      simp only [List.mem_cons, List.not_mem_nil, or_false] at hx
      subst hx
      exact le_refl _
    · intro j hj hji
      simp [selectMax1] at hji
  | cons a t ih =>
    obtain ⟨ihmax, ihlen, ihget, ihleft⟩ := ih a
    by_cases hlt : e.priority < (selectMax1 a t).2.priority
    · have hdef1 : (selectMax1 e (a :: t)).1 = (selectMax1 a t).1 + 1 := by
        simp [selectMax1, hlt]
      have hdef2 : (selectMax1 e (a :: t)).2 = (selectMax1 a t).2 := by
        simp [selectMax1, hlt]
      rw [hdef1, hdef2]
      refine ⟨?_, ⟨Nat.succ_lt_succ ihlen, ?_, ?_⟩⟩
      · intro x hx
        rcases List.mem_cons.mp hx with rfl | hx
        · exact le_of_lt hlt
        · exact ihmax x hx
      · exact ihget
      · intro j hj hji
        cases j with
        | zero => exact hlt
        | succ j2 =>
          exact ihleft j2 (Nat.lt_of_succ_lt_succ hj) (Nat.lt_of_succ_lt_succ hji)
    · have hdef1 : (selectMax1 e (a :: t)).1 = 0 := by
        simp [selectMax1, hlt]
      have hdef2 : (selectMax1 e (a :: t)).2 = e := by
        simp [selectMax1, hlt]
      rw [hdef1, hdef2]
      refine ⟨?_, ⟨Nat.succ_pos _, rfl, ?_⟩⟩
      · intro x hx
        rcases List.mem_cons.mp hx with rfl | hx
        · exact le_refl _
        · exact le_trans (ihmax x hx) (not_lt.mp hlt)
      · intro j hj hji
        exact absurd hji (Nat.not_lt_zero j)

/-- C3 counterexample: with the dynamic score of `d.test` at 1.02 (after
one FAST_RESPONSE event), an accepted BIG_SITE_FIRST enqueue stores the
integer priority 10, whereas `basePriority × domainScore × 10` is 10.2 —
the stored priority is the truncation of the product, not the product. -/
theorem big_site_priority_counterexample :
    (bsfEnqueue ⟨fun s => s, fun _ => true, 3⟩
        (update_score (mkManager [] []) "d.test" "FAST_RESPONSE")
        (fun _ => "d.test") Frontier.initial "u1" 0).2 = none ∧
    ((bsfEnqueue ⟨fun s => s, fun _ => true, 3⟩
        (update_score (mkManager [] []) "d.test" "FAST_RESPONSE")
        (fun _ => "d.test") Frontier.initial "u1" 0).1.queued.map
          FrontierEntry.priority) = [10] ∧
    ((10 : ℤ) : ℚ) ≠
      basePriority "u1" *
        get_score (update_score (mkManager [] []) "d.test" "FAST_RESPONSE") "d.test" * 10 := by
  have hdelta : eventDelta "FAST_RESPONSE" = 2/100 := by
    unfold eventDelta
    rw [if_neg (by decide), if_neg (by decide), if_pos rfl]
  have hscore :
      get_score (update_score (mkManager [] []) "d.test" "FAST_RESPONSE") "d.test" = 51/50 := by
    norm_num [update_score, get_score, mkManager, storedScore, hdelta, insertAssoc,
      ratMax, ratMin, List.lookup]
  have hbase : basePriority "u1" = 1 := by
    have : isResourceLink "u1" = false := by decide
    simp [basePriority, this]
  have hpri : enqueuePriority (update_score (mkManager [] []) "d.test" "FAST_RESPONSE")
      (fun _ => "d.test") "u1" = 10 := by
    unfold enqueuePriority
    rw [hscore, hbase]
    rw [Int.floor_eq_iff]
    norm_num
  refine ⟨?_, ?_, ?_⟩
  · simp [bsfEnqueue, Frontier.enqueue, Frontier.initial]
  · simp [bsfEnqueue, Frontier.enqueue, Frontier.initial, hpri]
  · rw [hscore, hbase]
    norm_num

/-- C3 amended: for every accepted BIG_SITE_FIRST enqueue, the new
entry's priority is the integer truncation
`⌊basePriority × domainScore(host) × 10⌋` (basePriority 5 for resource
links, 1 otherwise), and the BIG_SITE_FIRST dequeue removes and returns a
maximum-priority queued entry, ties broken by insertion order (the
leftmost entry attaining the maximum, the queue being in insertion
order). -/
theorem big_site_first_ordering :
    (∀ (cfg : FrontierCfg) (m : DomainScoreManager) (hostOf : String → String)
        (f : Frontier) (url : String) (depth : ℕ),
      (bsfEnqueue cfg m hostOf f url depth).2 = none →
      (bsfEnqueue cfg m hostOf f url depth).1.queued =
        f.queued ++ [⟨cfg.normalize url, depth,
          ⌊basePriority url * get_score m (hostOf url) * 10⌋, f.nextSeq⟩]) ∧
    (∀ q e rest, bsfDequeue q = some (e, rest) →
      e ∈ q ∧ (∀ x ∈ q, x.priority ≤ e.priority) ∧
      ∃ i, ∃ hi : i < q.length, q.get ⟨i, hi⟩ = e ∧ rest = q.eraseIdx i ∧
        ∀ j, ∀ hj : j < q.length, j < i → (q.get ⟨j, hj⟩).priority < e.priority) := by
  constructor
  · intro cfg m hostOf f url depth hacc
    unfold bsfEnqueue Frontier.enqueue at hacc ⊢
    split_ifs at hacc ⊢ with c1 c2 c3 c4
    all_goals rfl
  · intro q e rest hdeq
    cases q with
    | nil => simp [bsfDequeue] at hdeq
    | cons a t =>
      simp only [bsfDequeue, Option.some.injEq, Prod.mk.injEq] at hdeq
      obtain ⟨he, hrest⟩ := hdeq
      obtain ⟨hmax, hlen, hget, hleft⟩ := selectMax1_spec t a
      subst he
      subst hrest
      refine ⟨?_, hmax, (selectMax1 a t).1, hlen, hget, rfl, hleft⟩
      rw [← hget]
      exact (a :: t).get_mem _ hlen

/-- C3 witness: a queue holding priorities [5, 7, 7] dequeues the first
entry of priority 7 (index 1, the earlier of the tied pair), and an
accepted enqueue on a whitelisted host stores priority ⌊5 × 10 × 10⌋ =
500 for a resource link. -/
theorem big_site_first_ordering_witness :
    (bsfEnqueue ⟨fun s => s, fun _ => true, 3⟩ (mkManager ["w.test"] [])
        (fun _ => "w.test") Frontier.initial "u1.pdf" 0).1.queued =
      [⟨"u1.pdf", 0, 500, 0⟩] ∧
    (∀ x ∈ [(⟨"a", 0, 5, 0⟩ : FrontierEntry), ⟨"b", 0, 7, 1⟩, ⟨"c", 0, 7, 2⟩],
      x.priority ≤ (7 : ℤ)) := by
  constructor
  · have happ := big_site_first_ordering.1 ⟨fun s => s, fun _ => true, 3⟩
      (mkManager ["w.test"] []) (fun _ => "w.test") Frontier.initial "u1.pdf" 0
      (by simp [bsfEnqueue, Frontier.enqueue, Frontier.initial])
    rw [happ]
    have hsc : get_score (mkManager ["w.test"] []) "w.test" = 10 := by
      simp [get_score, mkManager]
    have hbase : basePriority "u1.pdf" = 5 := by
      have : isResourceLink "u1.pdf" = true := by decide
      simp [basePriority, this]
    rw [hsc, hbase]
    have : ⌊(5 : ℚ) * 10 * 10⌋ = (500 : ℤ) := by
      rw [Int.floor_eq_iff]
      norm_num
    simp [Frontier.initial, this]
  · have hdq := big_site_first_ordering.2
      [⟨"a", 0, 5, 0⟩, ⟨"b", 0, 7, 1⟩, ⟨"c", 0, 7, 2⟩] ⟨"b", 0, 7, 1⟩
      [⟨"a", 0, 5, 0⟩, ⟨"c", 0, 7, 2⟩] (by decide)
    intro x hx
    exact hdq.2.1 x hx

/-! ## FetchEscalationGate

The gate of §4.4.  Its implementation is not among the shipped sources;
the empty-shell heuristic appears as pseudocode in
`doc/dev/advanced_features_design.md` §1.4.3 (lines 89–108): content
length below 500 characters, or a known empty SPA mount point in the
markup.

Modelled from the spec: the gate escalates iff the static fetch
succeeded, the configuration permits rendering, the URL has not already
been escalated once, and the empty-shell heuristic fires; an escalated
URL is recorded so escalation happens at most once per URL.  Visible-text
extraction is an external parsing concern (§1), so a fetch result carries
the measured visible-text length and the SPA-mount-point flag directly. -/

structure FetchResult where
  success : Bool
  visibleTextLength : ℕ
  hasEmptySpaMount : Bool
  deriving DecidableEq

/-- The empty-shell heuristic: visible-text length below the
500-character threshold, or a known empty SPA mount point present. -/
def isEmptyShell (r : FetchResult) : Bool :=
  decide (r.visibleTextLength < 500) || r.hasEmptySpaMount

structure EscalationGate where
  allowRender : Bool
  escalated : List String
  deriving DecidableEq

def initialGate (allowRender : Bool) : EscalationGate :=
  { allowRender := allowRender, escalated := [] }

/-- The escalation decision for one fetched URL. -/
def shouldEscalate (g : EscalationGate) (url : String) (r : FetchResult) : Bool :=
  r.success && g.allowRender && decide (url ∉ g.escalated) && isEmptyShell r

/-- Process one fetched URL through the gate: decide escalation and, on
escalation, record the URL as escalated. -/
def gateStep (g : EscalationGate) (url : String) (r : FetchResult) :
    Bool × EscalationGate :=
  if shouldEscalate g url r then
    (true, { g with escalated := url :: g.escalated })
  else (false, g)

/-- Run the gate over a sequence of fetched URLs, collecting the URLs it
escalates, in order. -/
def runGate (g : EscalationGate) : List (String × FetchResult) → EscalationGate × List String
  | [] => (g, [])
  | (url, r) :: rest =>
    let p := gateStep g url r
    let q := runGate p.2 rest
    (q.1, (if p.1 then [url] else []) ++ q.2)

theorem runGate_trace_fresh (g : EscalationGate) (evs : List (String × FetchResult)) :
    (runGate g evs).2.Nodup ∧ ∀ u ∈ (runGate g evs).2, u ∉ g.escalated := by
  induction evs generalizing g with
  | nil => exact ⟨List.nodup_nil, by simp [runGate]⟩
  | cons ev rest ih =>
    obtain ⟨url, r⟩ := ev
    simp only [runGate]
    by_cases hesc : shouldEscalate g url r
    · have hstep : gateStep g url r = (true, { g with escalated := url :: g.escalated }) := by
        simp [gateStep, hesc]
      have hfresh : url ∉ g.escalated := by
        by_contra hc
        simp [shouldEscalate, hc] at hesc
      obtain ⟨ihnd, ihfresh⟩ := ih { g with escalated := url :: g.escalated }
      rw [hstep]
      simp only [if_pos rfl, List.singleton_append]
      constructor
      · refine List.nodup_cons.mpr ⟨?_, ihnd⟩
        intro hc
        exact ihfresh url hc (List.mem_cons_self _ _)
      · intro u hu
        rcases List.mem_cons.mp hu with rfl | hu
        · exact hfresh
        · intro hc
          exact ihfresh u hu (List.mem_cons_of_mem _ hc)
    · have hstep : gateStep g url r = (false, g) := by
        simp [gateStep, hesc]
      obtain ⟨ihnd, ihfresh⟩ := ih g
      rw [hstep]
      simpa using ⟨ihnd, ihfresh⟩

/-- C7.  The gate escalates exactly when the static fetch succeeded, the
configuration permits rendering, the URL was not escalated before, and
the content is an empty shell (visible text shorter than 500 characters
or an empty SPA mount point present); consequently, over any event
sequence from a fresh gate, no URL ever appears twice in the escalation
trace. -/
theorem escalation_gate_correct :
    (∀ (g : EscalationGate) (url : String) (r : FetchResult),
      (gateStep g url r).1 = true ↔
        (r.success = true ∧ g.allowRender = true ∧ url ∉ g.escalated ∧
          (r.visibleTextLength < 500 ∨ r.hasEmptySpaMount = true))) ∧
    (∀ (allowRender : Bool) (evs : List (String × FetchResult)),
      (runGate (initialGate allowRender) evs).2.Nodup) := by
  constructor
  · intro g url r
    constructor
    · intro h
      by_cases hesc : shouldEscalate g url r
      · have := hesc
        simp only [shouldEscalate, isEmptyShell, Bool.and_eq_true, decide_eq_true_eq,
          Bool.or_eq_true] at this
        tauto
      · simp [gateStep, hesc] at h
    · intro h
      have hesc : shouldEscalate g url r = true := by
        simp [shouldEscalate, isEmptyShell]
        tauto
      simp [gateStep, hesc]
  · intro allowRender evs
    exact (runGate_trace_fresh (initialGate allowRender) evs).1

/-- C7 witness: a successful empty-shell fetch escalates once, and
re-presenting the same URL (as if re-discovered through another link)
does not escalate it again — the trace holds the URL exactly once. -/
theorem escalation_gate_correct_witness :
    ((gateStep (initialGate true) "http://a.test"
        ⟨true, 0, false⟩).1 = true) ∧
    (runGate (initialGate true)
        [("http://a.test", ⟨true, 0, false⟩), ("http://a.test", ⟨true, 0, false⟩)]).2.Nodup := by
  constructor
  · exact (escalation_gate_correct.1 (initialGate true) "http://a.test"
      ⟨true, 0, false⟩).mpr (by refine ⟨rfl, rfl, ?_, Or.inl (by norm_num)⟩; simp [initialGate])
  · exact escalation_gate_correct.2 true
      [("http://a.test", ⟨true, 0, false⟩), ("http://a.test", ⟨true, 0, false⟩)]

/-! ## TaskController and the system-wide run slot

The lifecycle state machine of §4.1 and the admission control of §5.
The backend implementation (`crawler_service.py` / `crawl_task.py`) is
not among the shipped sources; the frontend only calls its REST API.

Modelled from the spec: six lifecycle states of which
COMPLETED/FAILED/STOPPED are terminal; `start` takes PENDING or PAUSED
to RUNNING and claims the single system-wide run slot, failing with
AlreadyRunningError when a different task holds the slot and with
InvalidStateError otherwise; `pause`/`resume` toggle RUNNING/PAUSED with
the slot retained (a PAUSED task keeps logical ownership of the slot,
the policy the frontend's `fetchStatus` also encodes);
`stop`/completion/failure release the slot; `updateConfig` is accepted
only while PAUSED and mutates `interval`, `max_pages`, `max_depth` in
place.  Tasks are identified by naturals; initially every task is
PENDING with the frontend's default configuration and the slot is free. -/

inductive TaskStatus
  | PENDING
  | RUNNING
  | PAUSED
  | COMPLETED
  | FAILED
  | STOPPED
  deriving DecidableEq

def TaskStatus.isTerminal : TaskStatus → Bool
  | .COMPLETED => true
  | .FAILED => true
  | .STOPPED => true
  | _ => false

structure CrawlConfig where
  start_url : String
  strategy : String
  interval : ℚ
  max_pages : ℕ
  max_depth : ℕ
  allow_domains : List String
  priority_domains : List String
  deriving DecidableEq

/-- The frontend's default task form values (`formData` in
`CrawlerMain.jsx`). -/
def defaultConfig : CrawlConfig :=
  { start_url := "https://crawler-test.com/", strategy := "BFS", interval := 2/10,
    max_pages := 5, max_depth := 3, allow_domains := [], priority_domains := [] }

inductive CtrlError
  | AlreadyRunningError
  | InvalidStateError
  | NotPausedError
  deriving DecidableEq

structure SystemState where
  status : ℕ → TaskStatus
  config : ℕ → CrawlConfig
  slot : Option ℕ

def initState : SystemState :=
  { status := fun _ => .PENDING, config := fun _ => defaultConfig, slot := none }

def setStatus (s : SystemState) (t : ℕ) (st : TaskStatus) : SystemState :=
  { s with status := fun t' => if t' = t then st else s.status t' }

def startFrom (s : SystemState) (t : ℕ) : SystemState × Option CtrlError :=
  match s.status t with
  | .PENDING => ({ setStatus s t .RUNNING with slot := some t }, none)
  | .PAUSED => ({ setStatus s t .RUNNING with slot := some t }, none)
  | _ => (s, some .InvalidStateError)

def start (s : SystemState) (t : ℕ) : SystemState × Option CtrlError :=
  match s.slot with
  | some t2 => if t2 = t then startFrom s t else (s, some .AlreadyRunningError)
  | none => startFrom s t

def pause (s : SystemState) (t : ℕ) : SystemState × Option CtrlError :=
  if s.status t = .RUNNING then (setStatus s t .PAUSED, none)
  else (s, some .InvalidStateError)

def resume (s : SystemState) (t : ℕ) : SystemState × Option CtrlError :=
  if s.status t = .PAUSED then (setStatus s t .RUNNING, none)
  else (s, some .InvalidStateError)

def stop (s : SystemState) (t : ℕ) : SystemState × Option CtrlError :=
  if s.status t = .RUNNING ∨ s.status t = .PAUSED then
    ({ setStatus s t .STOPPED with slot := none }, none)
  else (s, some .InvalidStateError)

/-- Natural completion (frontier empty or max_pages reached) drives
RUNNING → COMPLETED internally and releases the slot. -/
def complete (s : SystemState) (t : ℕ) : SystemState × Option CtrlError :=
  if s.status t = .RUNNING then ({ setStatus s t .COMPLETED with slot := none }, none)
  else (s, some .InvalidStateError)

/-- An unrecoverable setup error drives a RUNNING task to FAILED and
releases the slot. -/
def failTask (s : SystemState) (t : ℕ) : SystemState × Option CtrlError :=
  if s.status t = .RUNNING then ({ setStatus s t .FAILED with slot := none }, none)
  else (s, some .InvalidStateError)

/-- A partial configuration: the three mutable fields, each optional. -/
structure ConfigPatch where
  interval : Option ℚ
  max_pages : Option ℕ
  max_depth : Option ℕ

def applyPatch (c : CrawlConfig) (p : ConfigPatch) : CrawlConfig :=
  { c with
    interval := p.interval.getD c.interval,
    max_pages := p.max_pages.getD c.max_pages,
    max_depth := p.max_depth.getD c.max_depth }

def updateConfig (s : SystemState) (t : ℕ) (p : ConfigPatch) :
    SystemState × Option CtrlError :=
  if s.status t = .PAUSED then
    ({ s with config := fun t' => if t' = t then applyPatch (s.config t) p else s.config t' },
      none)
  else (s, some .NotPausedError)

/-- One exposed lifecycle operation (§6). -/
inductive CtrlOp
  | start (t : ℕ)
  | pause (t : ℕ)
  | resume (t : ℕ)
  | stop (t : ℕ)
  | complete (t : ℕ)
  | fail (t : ℕ)
  | updateConfig (t : ℕ) (p : ConfigPatch)

def ctrlStep (s : SystemState) : CtrlOp → SystemState
  | .start t => (start s t).1
  | .pause t => (pause s t).1
  | .resume t => (resume s t).1
  | .stop t => (stop s t).1
  | .complete t => (complete s t).1
  | .fail t => (failTask s t).1
  | .updateConfig t p => (updateConfig s t p).1

def runFrom (s : SystemState) (ops : List CtrlOp) : SystemState :=
  ops.foldl ctrlStep s

def runCtrl (ops : List CtrlOp) : SystemState :=
  runFrom initState ops

/-- The slot invariant: every RUNNING or PAUSED task holds the slot, and
the slot holder is RUNNING or PAUSED. -/
def SlotInv (s : SystemState) : Prop :=
  (∀ t, (s.status t = .RUNNING ∨ s.status t = .PAUSED) → s.slot = some t) ∧
  (∀ t, s.slot = some t → s.status t = .RUNNING ∨ s.status t = .PAUSED)

theorem slotInv_initState : SlotInv initState := by
  constructor
  · intro t ht
    rcases ht with ht | ht <;> simp [initState] at ht
  · intro t ht
    simp [initState] at ht

theorem slotInv_claim (s : SystemState)
    (ha : ∀ u, (s.status u = .RUNNING ∨ s.status u = .PAUSED) → s.slot = some u)
    (t : ℕ) (hfree : s.slot = none ∨ s.slot = some t) :
    SlotInv { setStatus s t .RUNNING with slot := some t } := by
  constructor
  · intro u hu
    by_cases he : u = t
    · simp [he]
    · have hu2 : s.status u = .RUNNING ∨ s.status u = .PAUSED := by
        simpa [setStatus, he] using hu
      have hslot := ha u hu2
      rcases hfree with hf | hf
      · rw [hf] at hslot
        exact absurd hslot (by simp)
      · rw [hf] at hslot
        injection hslot with h2
        exact absurd h2.symm he
  · intro u hu
    simp only [Option.some.injEq] at hu
    subst hu
    left
    simp [setStatus]

theorem slotInv_startFrom (s : SystemState) (hInv : SlotInv s) (t : ℕ)
    (hfree : s.slot = none ∨ s.slot = some t) : SlotInv (startFrom s t).1 := by
  unfold startFrom
  cases hst : s.status t <;> simp only [hst] <;>
    first
      | exact slotInv_claim s hInv.1 t hfree
      | exact hInv

theorem slotInv_start (s : SystemState) (hInv : SlotInv s) (t : ℕ) :
    SlotInv (start s t).1 := by
  unfold start
  cases hslot : s.slot with
  | none =>
    exact slotInv_startFrom s hInv t (Or.inl hslot)
  | some t2 =>
    by_cases he : t2 = t
    · subst he
      simpa using slotInv_startFrom s hInv t2 (Or.inr hslot)
    · simpa [he] using hInv

theorem slotInv_pause (s : SystemState) (hInv : SlotInv s) (t : ℕ) :
    SlotInv (pause s t).1 := by
  obtain ⟨ha, hb⟩ := hInv
  unfold pause
  by_cases hst : s.status t = .RUNNING
  · simp only [hst, if_pos rfl]
    constructor
    · intro u hu
      by_cases he : u = t
      · subst he
        exact ha u (Or.inl hst)
      · have hu2 : s.status u = .RUNNING ∨ s.status u = .PAUSED := by
          simpa [setStatus, he] using hu
        exact ha u hu2
    · intro u hu
      have hu2 := hb u hu
      by_cases he : u = t
      · subst he
        right
        simp [setStatus]
      · rcases hu2 with h2 | h2 <;> simp [setStatus, he, h2]
  · simpa [hst] using ⟨ha, hb⟩

theorem slotInv_resume (s : SystemState) (hInv : SlotInv s) (t : ℕ) :
    SlotInv (resume s t).1 := by
  obtain ⟨ha, hb⟩ := hInv
  unfold resume
  by_cases hst : s.status t = .PAUSED
  · simp only [hst, if_pos rfl]
    constructor
    · intro u hu
      by_cases he : u = t
      · subst he
        exact ha u (Or.inr hst)
      · have hu2 : s.status u = .RUNNING ∨ s.status u = .PAUSED := by
          simpa [setStatus, he] using hu
        exact ha u hu2
    · intro u hu
      have hu2 := hb u hu
      by_cases he : u = t
      · subst he
        left
        simp [setStatus]
      · rcases hu2 with h2 | h2 <;> simp [setStatus, he, h2]
  · simpa [hst] using ⟨ha, hb⟩

theorem slotInv_release (s : SystemState)
    (ha : ∀ u, (s.status u = .RUNNING ∨ s.status u = .PAUSED) → s.slot = some u)
    (t : ℕ) (hheld : s.slot = some t) (fin : TaskStatus)
    (hfin : fin.isTerminal = true) :
    SlotInv { setStatus s t fin with slot := none } := by
  constructor
  · intro u hu
    by_cases he : u = t
    · subst he
      rcases hu with hu | hu <;>
        · rw [show (setStatus s u fin).status u = fin from by simp [setStatus]] at hu
          rw [hu] at hfin
          simp [TaskStatus.isTerminal] at hfin
    · have hu2 : s.status u = .RUNNING ∨ s.status u = .PAUSED := by
        simpa [setStatus, he] using hu
      have hslot := ha u hu2
      rw [hheld] at hslot
      injection hslot with h2
      exact absurd h2 (fun hc => he hc.symm)
  · intro u hu
    exact absurd hu (by simp)

theorem slotInv_stop (s : SystemState) (hInv : SlotInv s) (t : ℕ) :
    SlotInv (stop s t).1 := by
  obtain ⟨ha, hb⟩ := hInv
  unfold stop
  by_cases hst : s.status t = .RUNNING ∨ s.status t = .PAUSED
  · simp only [hst, if_pos]
    exact slotInv_release s ha t (ha t hst) .STOPPED rfl
  · simpa [hst] using ⟨ha, hb⟩

theorem slotInv_complete (s : SystemState) (hInv : SlotInv s) (t : ℕ) :
    SlotInv (complete s t).1 := by
  obtain ⟨ha, hb⟩ := hInv
  unfold complete
  by_cases hst : s.status t = .RUNNING
  · simp only [hst, if_pos rfl]
    exact slotInv_release s ha t (ha t (Or.inl hst)) .COMPLETED rfl
  · simpa [hst] using ⟨ha, hb⟩

theorem slotInv_failTask (s : SystemState) (hInv : SlotInv s) (t : ℕ) :
    SlotInv (failTask s t).1 := by
  obtain ⟨ha, hb⟩ := hInv
  unfold failTask
  by_cases hst : s.status t = .RUNNING
  · simp only [hst, if_pos rfl]
    exact slotInv_release s ha t (ha t (Or.inl hst)) .FAILED rfl
  · simpa [hst] using ⟨ha, hb⟩

theorem slotInv_updateConfig (s : SystemState) (hInv : SlotInv s) (t : ℕ) (p : ConfigPatch) :
    SlotInv (updateConfig s t p).1 := by
  obtain ⟨ha, hb⟩ := hInv
  unfold updateConfig
  by_cases hst : s.status t = .PAUSED
  · simp only [hst, if_pos rfl]
    exact ⟨ha, hb⟩
  · simpa [hst] using ⟨ha, hb⟩

theorem slotInv_ctrlStep (s : SystemState) (hInv : SlotInv s) (op : CtrlOp) :
    SlotInv (ctrlStep s op) := by
  cases op with
  | start t => exact slotInv_start s hInv t
  | pause t => exact slotInv_pause s hInv t
  | resume t => exact slotInv_resume s hInv t
  | stop t => exact slotInv_stop s hInv t
  | complete t => exact slotInv_complete s hInv t
  | fail t => exact slotInv_failTask s hInv t
  | updateConfig t p => exact slotInv_updateConfig s hInv t p

theorem slotInv_runFrom (s : SystemState) (hInv : SlotInv s) (ops : List CtrlOp) :
    SlotInv (runFrom s ops) := by
  induction ops generalizing s with
  | nil => exact hInv
  | cons op rest ih => exact ih _ (slotInv_ctrlStep s hInv op)

/-- Task `A` still holds the run slot, or has reached a terminal state. -/
def HoldsOrTerminal (A : ℕ) (s : SystemState) : Prop :=
  s.slot = some A ∨ (s.status A).isTerminal = true


theorem terminal_setStatus (s : SystemState) (A t : ℕ) (st : TaskStatus)
    (hterm : (s.status A).isTerminal = true)
    (hguard : (s.status t).isTerminal = false) :
    ((setStatus s t st).status A).isTerminal = true := by
  by_cases he : A = t
  · subst he
    rw [hterm] at hguard
    exact Bool.noConfusion hguard
  · simpa [setStatus, he] using hterm

theorem terminal_ctrlStep (s : SystemState) (A : ℕ)
    (hterm : (s.status A).isTerminal = true) (op : CtrlOp) :
    ((ctrlStep s op).status A).isTerminal = true := by
  cases op with
  | start t =>
    show (((start s t).1).status A).isTerminal = true
    unfold start startFrom
    cases hslot : s.slot with
    | none =>
      cases hst : s.status t <;> simp only [hst] <;>
        first
          | exact hterm
          | exact terminal_setStatus s A t .RUNNING hterm (by rw [hst]; rfl)
    | some t2 =>
      by_cases he : t2 = t
      · subst he
        simp only [if_pos rfl]
        cases hst : s.status t2 <;> simp only [hst] <;>
          first
            | exact hterm
            | exact terminal_setStatus s A t2 .RUNNING hterm (by rw [hst]; rfl)
      · simp only [if_neg he]
        exact hterm
  | pause t =>
    show (((pause s t).1).status A).isTerminal = true
    unfold pause
    by_cases hst : s.status t = .RUNNING
    · simp only [hst, if_pos rfl]
      exact terminal_setStatus s A t .PAUSED hterm (by rw [hst]; rfl)
    · simpa [hst] using hterm
  | resume t =>
    show (((resume s t).1).status A).isTerminal = true
    unfold resume
    by_cases hst : s.status t = .PAUSED
    · simp only [hst, if_pos rfl]
      exact terminal_setStatus s A t .RUNNING hterm (by rw [hst]; rfl)
    · simpa [hst] using hterm
  | stop t =>
    show (((stop s t).1).status A).isTerminal = true
    unfold stop
    by_cases hst : s.status t = .RUNNING ∨ s.status t = .PAUSED
    · simp only [hst, if_pos]
      refine terminal_setStatus s A t .STOPPED hterm ?_
      rcases hst with h2 | h2 <;> (rw [h2]; rfl)
    · simpa [hst] using hterm
  | complete t =>
    show (((complete s t).1).status A).isTerminal = true
    unfold complete
    by_cases hst : s.status t = .RUNNING
    · simp only [hst, if_pos rfl]
      exact terminal_setStatus s A t .COMPLETED hterm (by rw [hst]; rfl)
    · simpa [hst] using hterm
  | fail t =>
    show (((failTask s t).1).status A).isTerminal = true
    unfold failTask
    by_cases hst : s.status t = .RUNNING
    · simp only [hst, if_pos rfl]
      exact terminal_setStatus s A t .FAILED hterm (by rw [hst]; rfl)
    · simpa [hst] using hterm
  | updateConfig t p =>
    show (((updateConfig s t p).1).status A).isTerminal = true
    unfold updateConfig
    by_cases hst : s.status t = .PAUSED <;> simpa [hst] using hterm

theorem start_slot_of_other (s : SystemState) (t2 t : ℕ) (hslot : s.slot = some t2)
    (hne : t2 ≠ t) : start s t = (s, some .AlreadyRunningError) := by
  unfold start
  rw [hslot]
  simp [hne]

theorem start_self_paused (s : SystemState) (t : ℕ) (hslot : s.slot = some t)
    (hp : s.status t = .PAUSED) :
    start s t = ({ setStatus s t .RUNNING with slot := some t }, none) := by
  unfold start startFrom
  rw [hslot, hp]
  simp

theorem start_self_running (s : SystemState) (t : ℕ) (hslot : s.slot = some t)
    (hr : s.status t = .RUNNING) : start s t = (s, some .InvalidStateError) := by
  unfold start startFrom
  rw [hslot, hr]
  simp

theorem holds_ctrlStep (s : SystemState) (hInv : SlotInv s) (A : ℕ)
    (h : HoldsOrTerminal A s) (op : CtrlOp) : HoldsOrTerminal A (ctrlStep s op) := by
  rcases h with hslot | hterm
  · cases op with
    | start t =>
      show HoldsOrTerminal A ((start s t).1)
      by_cases he : A = t
      · subst he
        rcases hInv.2 A hslot with h2 | h2
        · rw [start_self_running s A hslot h2]
          exact Or.inl hslot
        · rw [start_self_paused s A hslot h2]
          exact Or.inl rfl
      · rw [start_slot_of_other s A t hslot he]
        exact Or.inl hslot
    | pause t =>
      show HoldsOrTerminal A ((pause s t).1)
      unfold pause
      by_cases hst : s.status t = .RUNNING <;> left <;> simpa [hst, setStatus] using hslot
    | resume t =>
      show HoldsOrTerminal A ((resume s t).1)
      unfold resume
      by_cases hst : s.status t = .PAUSED <;> left <;> simpa [hst, setStatus] using hslot
    | stop t =>
      show HoldsOrTerminal A ((stop s t).1)
      unfold stop
      by_cases hst : s.status t = .RUNNING ∨ s.status t = .PAUSED
      · have ht := hInv.1 t hst
        rw [hslot] at ht
        injection ht with ht
        subst ht
        right
        simp [hst, setStatus, TaskStatus.isTerminal]
      · left
        simpa [hst] using hslot
    | complete t =>
      show HoldsOrTerminal A ((complete s t).1)
      unfold complete
      by_cases hst : s.status t = .RUNNING
      · have ht := hInv.1 t (Or.inl hst)
        rw [hslot] at ht
        injection ht with ht
        subst ht
        right
        simp [hst, setStatus, TaskStatus.isTerminal]
      · left
        simpa [hst] using hslot
    | fail t =>
      show HoldsOrTerminal A ((failTask s t).1)
      unfold failTask
      by_cases hst : s.status t = .RUNNING
      · have ht := hInv.1 t (Or.inl hst)
        rw [hslot] at ht
        injection ht with ht
        subst ht
        right
        simp [hst, setStatus, TaskStatus.isTerminal]
      · left
        simpa [hst] using hslot
    | updateConfig t p =>
      show HoldsOrTerminal A ((updateConfig s t p).1)
      unfold updateConfig
      by_cases hst : s.status t = .PAUSED <;> left <;> simpa [hst] using hslot
  · exact Or.inr (terminal_ctrlStep s A hterm op)

theorem holds_runFrom (s : SystemState) (hInv : SlotInv s) (A : ℕ)
    (h : HoldsOrTerminal A s) (ops : List CtrlOp) :
    HoldsOrTerminal A (runFrom s ops) := by
  induction ops generalizing s with
  | nil => exact h
  | cons op rest ih =>
    exact ih _ (slotInv_ctrlStep s hInv op) (holds_ctrlStep s hInv A h op)

theorem start_spec (s : SystemState) (t : ℕ) :
    ((start s t).2 = none ↔ ((s.status t = .PENDING ∨ s.status t = .PAUSED) ∧
      (s.slot = none ∨ s.slot = some t))) ∧
    ((start s t).2 = none → (start s t).1.slot = some t ∧ (start s t).1.status t = .RUNNING) := by
  unfold start startFrom
  cases hslot : s.slot with
  | none =>
    cases hst : s.status t <;> simp [hst, setStatus]
  | some t2 =>
    by_cases he : t2 = t
    · subst he
      cases hst : s.status t2 <;> simp [hst, setStatus]
    · simp [he]

/-- C4.  `start` succeeds exactly from PENDING and PAUSED (when the run
slot is free or already owned by the task), transitioning the task to
RUNNING; it fails with AlreadyRunningError when a different task holds
the single system-wide run slot, and with InvalidStateError when the
task itself is terminal (and the slot is free, the case in which no
other task can be blamed). -/
theorem start_transition_rules (s : SystemState) (t : ℕ) :
    ((start s t).2 = none ↔ ((s.status t = .PENDING ∨ s.status t = .PAUSED) ∧
      (s.slot = none ∨ s.slot = some t))) ∧
    ((start s t).2 = none → (start s t).1.status t = .RUNNING) ∧
    (∀ t2, s.slot = some t2 → t2 ≠ t → (start s t).2 = some .AlreadyRunningError) ∧
    ((s.status t).isTerminal = true → s.slot = none →
      (start s t).2 = some .InvalidStateError) := by
  refine ⟨(start_spec s t).1, fun h => ((start_spec s t).2 h).2, ?_, ?_⟩
  · intro t2 hslot hne
    rw [start_slot_of_other s t2 t hslot hne]
  · intro hterm hslot
    unfold start startFrom
    rw [hslot]
    cases hst : s.status t <;> simp only [hst] <;>
      first
        | rfl
        | (rw [hst] at hterm; exact Bool.noConfusion hterm)

/-- C4 witness: `start` on a fresh PENDING task yields RUNNING; `start`
on a STOPPED task with a free slot yields InvalidStateError; `start` on
another task while task 0 runs yields AlreadyRunningError. -/
theorem start_transition_rules_witness :
    (start initState 0).1.status 0 = TaskStatus.RUNNING ∧
    (start (setStatus initState 0 .STOPPED) 0).2 = some CtrlError.InvalidStateError ∧
    (start (start initState 0).1 1).2 = some CtrlError.AlreadyRunningError := by
  refine ⟨?_, ?_, ?_⟩
  · exact (start_transition_rules initState 0).2.1 (by rfl)
  · exact (start_transition_rules (setStatus initState 0 .STOPPED) 0).2.2.2 (by rfl) (by rfl)
  · exact (start_transition_rules (start initState 0).1 1).2.2.1 0 (by rfl) (by decide)

/-- C5.  Over every reachable system state: at most one task is RUNNING;
a PAUSED task still holds the run slot; and once `start(A)` succeeded,
as long as `A` has not reached a terminal state, `start(B)` for any
other task `B` fails with AlreadyRunningError. -/
theorem single_running_slot (ops : List CtrlOp) :
    (∀ a b, (runCtrl ops).status a = .RUNNING → (runCtrl ops).status b = .RUNNING → a = b) ∧
    (∀ t, (runCtrl ops).status t = .PAUSED → (runCtrl ops).slot = some t) ∧
    (∀ A, (start (runCtrl ops) A).2 = none →
      ∀ (ops2 : List CtrlOp) (B : ℕ), B ≠ A →
        ((runFrom (start (runCtrl ops) A).1 ops2).status A).isTerminal = false →
        (start (runFrom (start (runCtrl ops) A).1 ops2) B).2 =
          some .AlreadyRunningError) := by
  have hInv : SlotInv (runCtrl ops) := slotInv_runFrom initState slotInv_initState ops
  refine ⟨?_, ?_, ?_⟩
  · intro a b ha2 hb2
    have h1 := hInv.1 a (Or.inl ha2)
    have h2 := hInv.1 b (Or.inl hb2)
    rw [h1] at h2
    injection h2
  · intro t hp
    exact hInv.1 t (Or.inr hp)
  · intro A hsucc ops2 B hne hterm
    have hInv1 : SlotInv (start (runCtrl ops) A).1 :=
      slotInv_ctrlStep (runCtrl ops) hInv (.start A)
    have hholds : HoldsOrTerminal A (start (runCtrl ops) A).1 :=
      Or.inl ((start_spec (runCtrl ops) A).2 hsucc).1
    have h2 := holds_runFrom _ hInv1 A hholds ops2
    rcases h2 with h2 | h2
    · exact congrArg Prod.snd
        (start_slot_of_other (runFrom (start (runCtrl ops) A).1 ops2) A B h2 (fun hc => hne hc.symm))
    · rw [hterm] at h2
      exact Bool.noConfusion h2

/-- C5 witness: starting task 0 from the initial state and then starting
task 1 yields AlreadyRunningError. -/
theorem single_running_slot_witness :
    (start (runFrom (start (runCtrl []) 0).1 []) 1).2 =
      some CtrlError.AlreadyRunningError := by
  exact (single_running_slot []).2.2 0 (by rfl) [] 1 (by decide) (by rfl)

/-- C6.  `updateConfig` succeeds exactly while the task is PAUSED, in
which case it replaces exactly the fields `interval`, `max_pages` and
`max_depth` given by the partial patch, leaving every other
configuration field, every other task's configuration, and all statuses
unchanged; in any other state it fails with NotPausedError and no
configuration changes. -/
theorem update_config_paused_only (s : SystemState) (t : ℕ) (p : ConfigPatch) :
    ((updateConfig s t p).2 = none ↔ s.status t = .PAUSED) ∧
    (s.status t = .PAUSED →
      ((updateConfig s t p).1.config t).interval = p.interval.getD (s.config t).interval ∧
      ((updateConfig s t p).1.config t).max_pages = p.max_pages.getD (s.config t).max_pages ∧
      ((updateConfig s t p).1.config t).max_depth = p.max_depth.getD (s.config t).max_depth ∧
      ((updateConfig s t p).1.config t).start_url = (s.config t).start_url ∧
      ((updateConfig s t p).1.config t).strategy = (s.config t).strategy ∧
      ((updateConfig s t p).1.config t).allow_domains = (s.config t).allow_domains ∧
      ((updateConfig s t p).1.config t).priority_domains = (s.config t).priority_domains ∧
      (∀ u, u ≠ t → (updateConfig s t p).1.config u = s.config u) ∧
      (∀ u, (updateConfig s t p).1.status u = s.status u)) ∧
    (s.status t ≠ .PAUSED →
      (updateConfig s t p).2 = some .NotPausedError ∧
      ∀ u, (updateConfig s t p).1.config u = s.config u) := by
  refine ⟨?_, ?_, ?_⟩
  · by_cases hst : s.status t = .PAUSED <;> simp [updateConfig, hst]
  · intro hst
    refine ⟨?_, ?_, ?_, ?_, ?_, ?_, ?_, ?_, ?_⟩
    · simp [updateConfig, hst, applyPatch]
    · simp [updateConfig, hst, applyPatch]
    · simp [updateConfig, hst, applyPatch]
    · simp [updateConfig, hst, applyPatch]
    · simp [updateConfig, hst, applyPatch]
    · simp [updateConfig, hst, applyPatch]
    · simp [updateConfig, hst, applyPatch]
    · intro u hu
      simp [updateConfig, hst, applyPatch, hu]
    · intro u
      simp [updateConfig, hst]
  · intro hst
    simp [updateConfig, hst]

/-- C6 witness: on a PAUSED task the patch sets `max_pages` to 50 while
keeping `start_url`; on a PENDING task it fails with NotPausedError. -/
theorem update_config_paused_only_witness :
    ((updateConfig (setStatus initState 0 .PAUSED) 0
        ⟨some 1, some 50, none⟩).1.config 0).max_pages = 50 ∧
    ((updateConfig (setStatus initState 0 .PAUSED) 0
        ⟨some 1, some 50, none⟩).1.config 0).start_url = "https://crawler-test.com/" ∧
    (updateConfig initState 0 ⟨some 1, some 50, none⟩).2 = some CtrlError.NotPausedError := by
  have hp := (update_config_paused_only (setStatus initState 0 .PAUSED) 0
    ⟨some 1, some 50, none⟩).2.1 (by rfl)
  refine ⟨?_, ?_, ?_⟩
  · simpa using hp.2.1
  · simpa [initState, defaultConfig] using hp.2.2.2.1
  · exact ((update_config_paused_only initState 0 ⟨some 1, some 50, none⟩).2.2 (by decide)).1

/-! ## CrawlerMain realtime results

Embedded from `frontend/src/features/crawler_main/CrawlerMain.jsx`,
the `crawl_log` socket handler (lines 242–278): a message carrying a
truthy `task_id` is appended to that task's log list; when its
`event_type` is `PageCrawledEvent` or `PAGE_CRAWLED` a result row is
built from the message and appended to the task's realtime results
unless an entry with the same `url` is already present
(`currentResults.some(r => r.url === newResult.url)` guards the
append, returning the previous state unchanged). -/

structure EventData where
  url : String
  title : String
  depth : ℕ
  pdf_count : ℕ
  author : String
  abstract : String
  keywords : List String
  tags : Option (List String)
  deriving DecidableEq

structure CrawlLogMsg where
  task_id : Option String
  event_type : String
  timestamp : String
  data : EventData
  deriving DecidableEq

structure CrawlResultItem where
  title : String
  url : String
  depth : ℕ
  crawled_at : String
  pdf_count : ℕ
  author : String
  abstract : String
  keywords : List String
  tags : List String
  deriving DecidableEq

/-- The `newResult` object built by the handler (`tags` defaults to `[]`
via `eventData.tags || []`). -/
def mkRealtimeResult (msg : CrawlLogMsg) : CrawlResultItem :=
  { title := msg.data.title, url := msg.data.url, depth := msg.data.depth,
    crawled_at := msg.timestamp, pdf_count := msg.data.pdf_count,
    author := msg.data.author, abstract := msg.data.abstract,
    keywords := msg.data.keywords, tags := msg.data.tags.getD [] }

structure FrontendState where
  logs : List (String × List CrawlLogMsg)
  results : List (String × List CrawlResultItem)
  deriving DecidableEq

def initFrontend : FrontendState :=
  { logs := [], results := [] }

/-- `prev[task_id] || []` on the results object. -/
def resultsFor (rs : List (String × List CrawlResultItem)) (tid : String) :
    List CrawlResultItem :=
  (rs.lookup tid).getD []

/-- `prev[task_id] || []` on the logs object. -/
def logsFor (ls : List (String × List CrawlLogMsg)) (tid : String) :
    List CrawlLogMsg :=
  (ls.lookup tid).getD []

/-- The `crawl_log` handler.  A JS `if (task_id)` guard treats a missing
or empty task id as falsy. -/
def handleCrawlLog (st : FrontendState) (msg : CrawlLogMsg) : FrontendState :=
  match msg.task_id with
  | none => st
  | some tid =>
    if tid = "" then st
    else
      let st1 : FrontendState :=
        { st with logs := insertAssoc st.logs tid (logsFor st.logs tid ++ [msg]) }
      if msg.event_type = "PageCrawledEvent" ∨ msg.event_type = "PAGE_CRAWLED" then
        let newResult := mkRealtimeResult msg
        let current := resultsFor st1.results tid
        if newResult.url ∈ current.map CrawlResultItem.url then st1
        else { st1 with results := insertAssoc st1.results tid (current ++ [newResult]) }
      else st1

def runMsgs (msgs : List CrawlLogMsg) : FrontendState :=
  msgs.foldl handleCrawlLog initFrontend

/-- Every per-task result list is duplicate-free by URL. -/
def ResultsNodup (st : FrontendState) : Prop :=
  ∀ tid rs, st.results.lookup tid = some rs → (rs.map CrawlResultItem.url).Nodup

theorem resultsNodup_handle (st : FrontendState) (hnd : ResultsNodup st)
    (msg : CrawlLogMsg) : ResultsNodup (handleCrawlLog st msg) := by
  unfold handleCrawlLog
  cases htid : msg.task_id with
  | none => exact hnd
  | some tid =>
    by_cases hempty : tid = ""
    · simpa [hempty] using hnd
    · simp only [hempty, if_false]
      by_cases hev : msg.event_type = "PageCrawledEvent" ∨ msg.event_type = "PAGE_CRAWLED"
      · simp only [hev, if_true]
        by_cases hdup :
            (mkRealtimeResult msg).url ∈
              (resultsFor st.results tid).map CrawlResultItem.url
        · simpa [hdup] using hnd
        · simp only [hdup, if_false]
          intro tid2 rs hrs
          simp only at hrs
          rw [lookup_insertAssoc] at hrs
          by_cases he : tid2 = tid
          · simp only [he, if_true, Option.some.injEq] at hrs
            subst hrs
            simp only [List.map_append, List.map_cons, List.map_nil]
            rw [List.nodup_append]
            refine ⟨?_, List.nodup_singleton _, ?_⟩
            · unfold resultsFor
              cases hlk : st.results.lookup tid with
              | none => simp
              | some rs0 => simpa using hnd tid rs0 hlk
            · intro u hu hc
              simp only [List.mem_singleton] at hc
              subst hc
              exact hdup hu
          · simp only [he, if_false] at hrs
            exact hnd tid2 rs hrs
      · simpa [hev] using hnd
  
theorem resultsNodup_foldl (st : FrontendState) (hnd : ResultsNodup st)
    (msgs : List CrawlLogMsg) : ResultsNodup (msgs.foldl handleCrawlLog st) := by
  induction msgs generalizing st with
  | nil => exact hnd
  | cons m rest ih => exact ih _ (resultsNodup_handle st hnd m)

theorem resultsNodup_runMsgs (msgs : List CrawlLogMsg) :
    ResultsNodup (runMsgs msgs) :=
  resultsNodup_foldl initFrontend (by intro tid rs hrs; simp [initFrontend] at hrs) msgs

/-- C10.  Per task, the realtime results list never holds two entries
with the same url over any sequence of `crawl_log` messages, and a
PageCrawledEvent message whose url already appears in the task's list
leaves the results state unchanged. -/
theorem realtime_results_dedup :
    (∀ (msgs : List CrawlLogMsg) (tid : String) (rs : List CrawlResultItem),
      (runMsgs msgs).results.lookup tid = some rs →
        (rs.map CrawlResultItem.url).Nodup) ∧
    (∀ (st : FrontendState) (msg : CrawlLogMsg) (tid : String),
      msg.task_id = some tid → tid ≠ "" →
      (msg.event_type = "PageCrawledEvent" ∨ msg.event_type = "PAGE_CRAWLED") →
      msg.data.url ∈ (resultsFor st.results tid).map CrawlResultItem.url →
      (handleCrawlLog st msg).results = st.results) := by
  constructor
  · intro msgs tid rs hrs
    exact resultsNodup_runMsgs msgs tid rs hrs
  · intro st msg tid htid hne hev hdup
    unfold handleCrawlLog
    rw [htid]
    simp only [if_neg hne, if_pos hev]
    have hex : ∃ a ∈ (st.results.lookup tid).getD [], a.url = msg.data.url := by
      simpa [resultsFor] using List.mem_map.mp hdup
    simp [mkRealtimeResult, resultsFor, hex]

/-- A sample PageCrawledEvent message, mirroring the integration test's
payload. -/
def sampleMsg : CrawlLogMsg :=
  { task_id := some "task-123456", event_type := "PageCrawledEvent",
    timestamp := "2025-12-14 22:45:23",
    data := { url := "https://example.com", title := "Test Page", depth := 1,
              pdf_count := 0, author := "", abstract := "", keywords := [],
              tags := none } }

/-- C10 witness: delivering the same PageCrawledEvent twice leaves one
duplicate-free result row, and the second delivery does not change the
results state. -/
theorem realtime_results_dedup_witness :
    ([mkRealtimeResult sampleMsg].map CrawlResultItem.url).Nodup ∧
    (handleCrawlLog (runMsgs [sampleMsg]) sampleMsg).results =
      (runMsgs [sampleMsg]).results := by
  constructor
  · exact realtime_results_dedup.1 [sampleMsg, sampleMsg] "task-123456"
      [mkRealtimeResult sampleMsg] (by decide)
  · exact realtime_results_dedup.2 (runMsgs [sampleMsg]) sampleMsg "task-123456"
      rfl (by decide) (Or.inl rfl) (by decide)
